import Mathlib

/-!
Shallow embedding of `dumbrss.py`, a single-file RSS aggregator, together
with proofs about its parsing and rendering pipeline.

The Python program fetches each configured feed URL, parses the XML
channel into `Feed`/`Article` records, and renders one HTML document.
Machine-level details that the program delegates to the standard library
(`str.splitlines`, `str.split`, `str.join`, `datetime.strptime`,
`datetime.strftime`) are embedded as executable Lean functions mirroring
CPython's documented behaviour.  Effects are made explicit: the HTTP
client is a parameter `http : String → HttpResp` delivering the response
status and the XML tree that `defusedxml` would produce from the body,
and exceptions are modelled with `Except String`.
-/

set_option autoImplicit false

/-! ### Python string primitives -/

/-- The line-boundary characters recognised by Python `str.splitlines`. -/
def isLB (c : Char) : Bool :=
  c == '\n' || c == '\r' || c == '\x0B' || c == '\x0C' ||
  c == '\x1C' || c == '\x1D' || c == '\x1E' || c == '\x85' ||
  c == '\u2028' || c == '\u2029'

/-- Collapse every (leftmost, non-overlapping) `"\r\n"` pair to `"\n"`:
CPython's `splitlines` treats the pair as a single boundary, and both
characters are boundaries on their own, so `splitlines` may equivalently
run on the collapsed text. -/
def normCRLF : List Char → List Char
  | [] => []
  | c :: rest =>
      match rest with
      | [] => [c]
      | c2 :: rest2 =>
          if c = '\r' ∧ c2 = '\n' then '\n' :: normCRLF rest2
          else c :: normCRLF (c2 :: rest2)

/-- Worker for `splitlines`: `acc` holds the current (reversed) pending
line; each boundary character emits the pending line. -/
def splitlinesGo : List Char → List Char → List String
  | [], acc => if acc = [] then [] else [⟨acc.reverse⟩]
  | c :: rest, acc =>
      if isLB c then (⟨acc.reverse⟩ : String) :: splitlinesGo rest []
      else splitlinesGo rest (c :: acc)

/-- Python `s.splitlines()`: split at line boundaries (a `"\r\n"` pair
counting as one boundary), with no trailing empty line. -/
def splitlines (s : String) : List String :=
  splitlinesGo (normCRLF s.data) []

/-- Python `sep.join(lst)`. -/
def joinWith (sep : String) : List String → String
  | [] => ""
  | [s] => s
  | s :: rest => s ++ sep ++ joinWith sep rest

/-- Worker for `strContains`. -/
def strContainsAux (needle : List Char) : List Char → Bool
  | [] => needle.isPrefixOf ([] : List Char)
  | c :: rest => needle.isPrefixOf (c :: rest) || strContainsAux needle rest

/-- Python `needle in hay` on strings: substring containment. -/
def strContains (needle hay : String) : Bool :=
  strContainsAux needle.data hay.data

/-- Worker for `splitSpace`. -/
def splitSpAux : List Char → List Char → List String
  | [], cur => [⟨cur.reverse⟩]
  | c :: rest, cur =>
      if c = ' ' then (⟨cur.reverse⟩ : String) :: splitSpAux rest []
      else splitSpAux rest (c :: cur)

/-- Python `s.split(" ")`: split at every single space, keeping empty parts. -/
def splitSpace (s : String) : List String :=
  splitSpAux s.data []

/-- Python `str(x)` for an `str | None` value: `None` prints as `"None"`. -/
def strOfOpt : Option String → String
  | some s => s
  | none => "None"

/-- Returns `true` iff the computation did not raise. -/
def isOkE {α : Type} : Except String α → Bool
  | .ok _ => true
  | .error _ => false

/-! ### Dates: `datetime.strptime(_, "%d %b %Y")` and `strftime("%x")` -/

/-- A calendar date as produced by `datetime.strptime` (time parts unused). -/
structure Date where
  year : Nat
  month : Nat
  day : Nat
deriving DecidableEq

/-- The characters matched by `\s` in the regexes CPython's `_strptime`
builds for whitespace in the format string (ASCII portion). -/
def wsChar (c : Char) : Bool :=
  c == ' ' || c == '\t' || c == '\n' || c == '\r' || c == '\x0B' || c == '\x0C'

/-- Consume a maximal run of whitespace. -/
def wsMany : List Char → List Char
  | [] => []
  | c :: rest => if wsChar c then wsMany rest else c :: rest

/-- Whitespace `\s+`: at least one whitespace character, then a maximal run. -/
def ws1 : List Char → Option (List Char)
  | [] => none
  | c :: rest => if wsChar c then some (wsMany rest) else none

/-- The regex CPython uses for `%d` is `3[01]|[12]\d|0[1-9]|[1-9]`; this
returns the possible (value, remaining input) matches in alternation
order, so that the caller can backtrack like the regex engine. -/
def dayCandidates (l : List Char) : List (Nat × List Char) :=
  let two :=
    match l with
    | c1 :: c2 :: rest =>
        if c1 = '3' ∧ (c2 = '0' ∨ c2 = '1') then [(30 + (c2.toNat - 48), rest)]
        else if (c1 = '1' ∨ c1 = '2') ∧ c2.isDigit then
          [((c1.toNat - 48) * 10 + (c2.toNat - 48), rest)]
        else if c1 = '0' ∧ ('1' ≤ c2 ∧ c2 ≤ '9') then [(c2.toNat - 48, rest)]
        else []
    | _ => []
  let one :=
    match l with
    | c :: rest => if '1' ≤ c ∧ c ≤ '9' then [(c.toNat - 48, rest)] else []
    | _ => []
  two ++ one

/-- C-locale month abbreviations, lowercased (`%b` matches case-insensitively). -/
def monthNames : List String :=
  ["jan", "feb", "mar", "apr", "may", "jun", "jul", "aug", "sep", "oct", "nov", "dec"]

/-- The 1-based index of a month name. -/
def findMonth : Nat → List String → String → Option Nat
  | _, [], _ => none
  | i, n :: ns, s => if n = s then some i else findMonth (i + 1) ns s

/-- Directive `%b`: a three-letter month abbreviation, case-insensitive. -/
def monthParse : List Char → Option (Nat × List Char)
  | c1 :: c2 :: c3 :: rest =>
      match findMonth 1 monthNames ⟨[c1.toLower, c2.toLower, c3.toLower]⟩ with
      | some m => some (m, rest)
      | none => none
  | _ => none

/-- Directive `%Y`: exactly four digits. -/
def year4 : List Char → Option (Nat × List Char)
  | c1 :: c2 :: c3 :: c4 :: rest =>
      if c1.isDigit ∧ c2.isDigit ∧ c3.isDigit ∧ c4.isDigit then
        some ((((c1.toNat - 48) * 10 + (c2.toNat - 48)) * 10 + (c3.toNat - 48)) * 10
          + (c4.toNat - 48), rest)
      else none
  | _ => none

/-- Days in a month, with Gregorian leap years, as `datetime` validates. -/
def daysInMonth (y m : Nat) : Nat :=
  if m = 2 then (if (y % 4 = 0 ∧ y % 100 ≠ 0) ∨ y % 400 = 0 then 29 else 28)
  else if m = 4 ∨ m = 6 ∨ m = 9 ∨ m = 11 then 30 else 31

/-- Try the day alternatives in regex order.  A full regex match commits;
`datetime`'s range validation happens after the match, and its failure
(`none`) is not backtracked, exactly as in `datetime.strptime`. -/
def tryCand : List (Nat × List Char) → Option Date
  | [] => none
  | (d, rest) :: more =>
      match (do
        let r1 ← ws1 rest
        let (m, r2) ← monthParse r1
        let r3 ← ws1 r2
        let (y, r4) ← year4 r3
        if r4 = [] then some (y, m) else none : Option (Nat × Nat)) with
      | some (y, m) =>
          if 1 ≤ y ∧ d ≤ daysInMonth y m then some ⟨y, m, d⟩ else none
      | none => tryCand more

/-- Model of `datetime.strptime(s, "%d %b %Y")`; `none` models the `ValueError`. -/
def strptimeDBY (s : String) : Option Date :=
  tryCand (dayCandidates s.data)

/-- Two-digit zero-padded decimal rendering. -/
def twoDigit (n : Nat) : String :=
  ⟨[Char.ofNat (48 + n / 10 % 10), Char.ofNat (48 + n % 10)]⟩

/-- Model of `datetime.strftime(d, "%x")` under the default C locale (`%m/%d/%y`). -/
def fmtX (d : Date) : String :=
  twoDigit d.month ++ "/" ++ twoDigit d.day ++ "/" ++ twoDigit (d.year % 100)

/-! ### XML elements

`xml.etree` elements as the program observes them: a tag, the optional
text content, and the list of child elements (iteration order). -/

inductive XElem where
  | mk (tag : String) (text : Option String) (children : List XElem)

/-- The element's tag name. -/
def XElem.tag : XElem → String
  | .mk t _ _ => t

/-- The element's `.text` attribute (`str | None`). -/
def XElem.text : XElem → Option String
  | .mk _ t _ => t

/-- The element's child elements, in document order. -/
def XElem.children : XElem → List XElem
  | .mk _ _ c => c

/-! ### `Article` -/

/-- The dynamic value of `Article.date`.  The dataclass declares
`date: datetime | None = None`, but the reflection fallback in
`Article.parse` (`setattr(article, el.tag, el.text)`) can also store the
raw text of a `<date>` child there, so the field can hold a string. -/
inductive DateField where
  | unset
  | dt (d : Date)
  | raw (s : String)
deriving DecidableEq

/-- The `Article` dataclass.  Note the defaults from the source:
`title = ""`, `link = ""`, `description = ""` (present-but-empty, not
`None`), `date = None`. -/
structure Article where
  title : Option String := some ""
  link : Option String := some ""
  description : Option String := some ""
  date : DateField := .unset
deriving DecidableEq

/-- Source `Article.parse_dt`:
`datetime.strptime(" ".join(s.split(" ")[1:4]), "%d %b %Y")`.
`none` models the `ValueError` the call raises on malformed input. -/
def Article.parse_dt (s : String) : Option Date :=
  strptimeDBY (joinWith " " (((splitSpace s).drop 1).take 3))

/-- Source `Article.parse_description`: keep only the lines that are non-empty
and do not contain the boilerplate marker, re-joined with `"\n"`. -/
def Article.parse_description (s : String) : String :=
  joinWith "\n" ((splitlines s).filter
    (fun ln => !(ln == "") && !(strContains "appeared first on" ln)))

/-- One iteration of the `for el in item` loop of `Article.parse`.
The fallback `if hasattr(article, el.tag): setattr(article, el.tag, el.text)`
touches a dataclass field only for the tags `title`, `link` and `date`
(`description` and `pubDate` are handled by the explicit cases, and tags
naming methods or dunder attributes do not change any field). -/
def articleStep (a : Article) (el : XElem) : Except String Article :=
  if el.tag = "pubDate" then
    match el.text with
    | some t =>
        if t = "" then .ok { a with date := .unset }
        else
          match Article.parse_dt t with
          | some d => .ok { a with date := .dt d }
          | none => .error "ValueError"
    | none => .ok { a with date := .unset }
  else if el.tag = "description" then
    match el.text with
    | some t =>
        if t = "" then .ok { a with description := none }
        else .ok { a with description := some (Article.parse_description t) }
    | none => .ok { a with description := none }
  else if el.tag = "title" then .ok { a with title := el.text }
  else if el.tag = "link" then .ok { a with link := el.text }
  else if el.tag = "date" then
    .ok { a with date := match el.text with | some t => .raw t | none => .unset }
  else .ok a

/-- The `for el in item` loop, threading the article being built. -/
def itemLoop (a : Article) : List XElem → Except String Article
  | [] => .ok a
  | el :: rest => do
      let a2 ← articleStep a el
      itemLoop a2 rest

/-- Source `Article.parse`: build an article from an `<item>` element. -/
def Article.parse (item : XElem) : Except String Article :=
  itemLoop {} item.children

/-- The `ARTICLE_FMT` template with its placeholders substituted. -/
def ARTICLE_FMT (date link title description : String) : String :=
  "\n<li class=\"article\">\n    " ++ date ++ " - <a href=\"" ++ link ++
  "\" target=\"new\">" ++ title ++ "</a>\n    <br/>\n    <div class=\"article-description\">" ++
  description ++ "</div>\n</li>\n"

/-- The date string `Article.format` interpolates: `if self.date:` keeps
the raw `asdict` value for falsy dates (`None` prints as `"None"`, an
empty string prints as `""`), formats a real date with `"%x"`, and
`datetime.strftime` raises `TypeError` on a non-empty string value. -/
def Article.fmtDateField : DateField → Except String String
  | .unset => .ok "None"
  | .dt d => .ok (fmtX d)
  | .raw s => if s = "" then .ok "" else .error "TypeError"

/-- Source `Article.format`. -/
def Article.format (a : Article) : Except String String := do
  let ds ← Article.fmtDateField a.date
  .ok (ARTICLE_FMT ds (strOfOpt a.link) (strOfOpt a.title) (strOfOpt a.description))

/-! ### `Feed` -/

/-- The dynamic value of `Feed.articles`: normally the growing list of
articles, but the reflection fallback in `Feed.parse` can overwrite it
with the text of an `<articles>` channel child
(`setattr(feed, el.tag, el.text)`), after which it is no longer a list. -/
inductive ArticlesField where
  | items (l : List Article)
  | overwritten (t : Option String)
deriving DecidableEq

/-- The `Feed` dataclass (`title = ""`, `link = ""`, `articles = []`). -/
structure Feed where
  title : Option String := some ""
  link : Option String := some ""
  articles : ArticlesField := .items []
deriving DecidableEq

/-- One iteration of the `for el in data[0]` loop of `Feed.parse`.
An `item` child is parsed and appended (`.append` raises
`AttributeError` first if `articles` was overwritten and is no longer a
list); the fallback `hasattr`/`setattr` touches a dataclass field only
for the tags `title`, `link` and `articles`. -/
def feedStep (f : Feed) (el : XElem) : Except String Feed :=
  if el.tag = "item" then
    match f.articles with
    | .overwritten _ => .error "AttributeError"
    | .items l =>
        match Article.parse el with
        | .ok a => .ok { f with articles := .items (l ++ [a]) }
        | .error e => .error e
  else if el.tag = "title" then .ok { f with title := el.text }
  else if el.tag = "link" then .ok { f with link := el.text }
  else if el.tag = "articles" then .ok { f with articles := .overwritten el.text }
  else .ok f

/-- The `for el in data[0]` loop, threading the feed being built. -/
def channelLoop (f : Feed) : List XElem → Except String Feed
  | [] => .ok f
  | el :: rest => do
      let f2 ← feedStep f el
      channelLoop f2 rest

/-- The walk of the channel element (`data[0]`) in `Feed.parse`. -/
def Feed.parseChannel (channel : XElem) : Except String Feed :=
  channelLoop {} channel.children

/-- An HTTP response as `Feed.parse` observes it: the status code and
the XML tree that `defusedxml.ElementTree.fromstring` produces from the
body text. -/
structure HttpResp where
  status : Nat
  root : XElem

/-- Source `Feed.parse(url)`.  `requests.Response.ok` is `status_code < 400`;
a non-ok response raises `RuntimeError(f"Failed to fetch: {url}")`.
`data[0]` raises `IndexError` when the root has no children. -/
def Feed.parse (http : String → HttpResp) (url : String) : Except String Feed :=
  let resp := http url
  if resp.status < 400 then
    match resp.root.children.head? with
    | some channel => Feed.parseChannel channel
    | none => .error "IndexError"
  else .error ("Failed to fetch: " ++ url)

/-- The `FEED_FMT` template with its placeholders substituted. -/
def FEED_FMT (link title articles : String) : String :=
  "\n<div class=\"feed\">\n    <a href=\"" ++ link ++ "\" target=\"new\"><h2>" ++ title ++
  "</h2></a>\n    <ul class=\"article-list\">\n        " ++ articles ++
  "\n    </ul>\n</div>\n"

/-- Source `Feed.format`.  When `articles` is still a list, each article is
formatted and the fragments are joined with `"<br/>"`.  When it was
overwritten with a string, Python iterates over its characters and calls
`.format()` on each one (raising `ValueError` on a lone brace); when it
was overwritten with `None`, the iteration raises `TypeError`. -/
def Feed.format (f : Feed) : Except String String :=
  match f.articles with
  | .items l => do
      let parts ← l.mapM Article.format
      .ok (FEED_FMT (strOfOpt f.link) (strOfOpt f.title) (joinWith "<br/>" parts))
  | .overwritten (some s) =>
      if s.data.any (fun c => c = '\x7b' || c = '\x7d') then .error "ValueError"
      else .ok (FEED_FMT (strOfOpt f.link) (strOfOpt f.title)
        (joinWith "<br/>" (s.data.map (fun c => (⟨[c]⟩ : String)))))
  | .overwritten none => .error "TypeError"

/-- The `CATEGORY_FMT` template with its placeholders substituted. -/
def CATEGORY_FMT (title feeds : String) : String :=
  "\n<div class=\"category\">\n    <h1 class=\"category-title\">" ++ title ++
  "</h1>\n    " ++ feeds ++ "\n</div>\n"

/-- The `HTML_FMT` template with its placeholder substituted. -/
def HTML_FMT (body : String) : String :=
  "\n<!DOCTYPE html>\n<html lang=\"en\">\n  <head>\n    <meta charset=\"UTF-8\">\n    <meta name=\"viewport\" content=\"width=device-width, initial-scale=1.0\">\n    <title>RSS</title>\n    <link rel=\"stylesheet\" href=\"./style.css\">\n    <link rel=\"icon\" href=\"./favicon.ico\" type=\"image/x-icon\">\n  </head>\n  <body>\n    <main>\n        " ++
  body ++ "\n    </main>\n  </body>\n</html>\n"

/-! ### `main` -/

/-- Source `Feed.parse(url).format()`: the fragment appended for one URL. -/
def fetchFragment (http : String → HttpResp) (url : String) : Except String String :=
  (Feed.parse http url).bind Feed.format

/-- The inner `for url in urls` loop of `main`, collecting feed fragments. -/
def feedsLoop (http : String → HttpResp) : List String → Except String (List String)
  | [] => .ok []
  | url :: rest => do
      let s ← fetchFragment http url
      let others ← feedsLoop http rest
      pure (s :: others)

/-- The outer `for category, urls in ...` loop of `main`, collecting
category fragments in configuration order. -/
def categoriesLoop (http : String → HttpResp) :
    List (String × List String) → Except String (List String)
  | [] => .ok []
  | (cat, urls) :: rest => do
      let feeds ← feedsLoop http urls
      let others ← categoriesLoop http rest
      pure (CATEGORY_FMT cat (joinWith "\n" feeds) :: others)

/-- Source `main`: the configuration is the category → URL-list mapping read
from the TOML file (dict insertion order = file order).  The result is
the text written to `index.html`; an `error` means the run aborted with
an exception before the output-writing step, so no file is written. -/
def mainRun (config : List (String × List String)) (http : String → HttpResp) :
    Except String String := do
  let cats ← categoriesLoop http config
  pure (HTML_FMT (joinWith "\n" cats))

/-! ### Lemmas about `splitlines` and `joinWith "\n"` -/

theorem normCRLF_no_cr (l : List Char) (h : '\r' ∉ l) : normCRLF l = l := by
  induction l with
  | nil => rfl
  | cons c rest ih =>
      cases rest with
      | nil => rfl
      | cons c2 rest2 =>
          have hc : c ≠ '\r' := by intro hc; exact h (hc ▸ List.mem_cons_self _ _)
          have h2 : '\r' ∉ c2 :: rest2 := fun hm => h (List.mem_cons_of_mem _ hm)
          simp only [normCRLF]
          rw [if_neg (by intro hand; exact hc hand.1)]
          rw [ih h2]

theorem splitlinesGo_no_lb (l : List Char) :
    ∀ acc, (∀ c ∈ acc, isLB c = false) →
      ∀ s ∈ splitlinesGo l acc, ∀ c ∈ s.data, isLB c = false := by
  induction l with
  | nil =>
      intro acc hacc s hs c hc
      simp only [splitlinesGo] at hs
      by_cases h : acc = []
      · simp [h] at hs
      · rw [if_neg h] at hs
        simp only [List.mem_singleton] at hs
        subst hs
        exact hacc c (List.mem_reverse.mp hc)
  | cons x rest ih =>
      intro acc hacc s hs c hc
      simp only [splitlinesGo] at hs
      by_cases hx : isLB x
      · rw [if_pos hx] at hs
        rcases List.mem_cons.mp hs with rfl | hs
        · exact hacc c (List.mem_reverse.mp hc)
        · exact ih [] (by intro a ha; cases ha) s hs c hc
      · rw [if_neg hx] at hs
        refine ih (x :: acc) ?_ s hs c hc
        intro a ha
        rcases List.mem_cons.mp ha with rfl | ha
        · exact Bool.eq_false_iff.mpr hx
        · exact hacc a ha

theorem splitlinesGo_flat (xs : List Char) :
    ∀ acc, (∀ c ∈ xs, isLB c = false) →
      splitlinesGo xs acc =
        if acc.reverse ++ xs = [] then [] else [⟨acc.reverse ++ xs⟩] := by
  induction xs with
  | nil =>
      intro acc _
      simp only [splitlinesGo, List.append_nil]
      by_cases h : acc = []
      · simp [h]
      · rw [if_neg h, if_neg (by simp [h])]
  | cons x rest ih =>
      intro acc hx
      simp only [splitlinesGo]
      rw [if_neg (by simpa using hx x (List.mem_cons_self _ _))]
      rw [ih (x :: acc) (fun c hc => hx c (List.mem_cons_of_mem _ hc))]
      simp

theorem splitlinesGo_append (xs : List Char) :
    ∀ acc rest, (∀ c ∈ xs, isLB c = false) →
      splitlinesGo (xs ++ '\n' :: rest) acc =
        (⟨acc.reverse ++ xs⟩ : String) :: splitlinesGo rest [] := by
  induction xs with
  | nil =>
      intro acc rest _
      simp only [List.nil_append, splitlinesGo]
      rw [if_pos (by decide)]
      simp
  | cons x xs2 ih =>
      intro acc rest hx
      simp only [List.cons_append, splitlinesGo, List.append_eq]
      rw [if_neg (by simpa using hx x (List.mem_cons_self _ _))]
      rw [ih (x :: acc) rest (fun c hc => hx c (List.mem_cons_of_mem _ hc))]
      simp

theorem mem_join_nl (L : List String) (c : Char) (hc : c ∈ (joinWith "\n" L).data) :
    c = '\n' ∨ ∃ s ∈ L, c ∈ s.data := by
  induction L with
  | nil => cases hc
  | cons s rest ih =>
      cases rest with
      | nil =>
          right
          exact ⟨s, List.mem_cons_self _ _, hc⟩
      | cons t rest2 =>
          simp only [joinWith, String.data_append] at hc
          rcases List.mem_append.mp hc with h1 | h2
          · rcases List.mem_append.mp h1 with ha | hb
            · right; exact ⟨s, List.mem_cons_self _ _, ha⟩
            · left; simpa using hb
          · rcases ih h2 with h | ⟨u, hu, hcu⟩
            · left; exact h
            · right; exact ⟨u, List.mem_cons_of_mem _ hu, hcu⟩

/-- Splitting a `"\n"`-join of non-empty, boundary-free lines recovers
exactly those lines. -/
theorem splitlines_joinWith (L : List String)
    (h1 : ∀ s ∈ L, s ≠ "") (h2 : ∀ s ∈ L, ∀ c ∈ s.data, isLB c = false) :
    splitlines (joinWith "\n" L) = L := by
  have hnocr : '\r' ∉ (joinWith "\n" L).data := by
    intro hmem
    rcases mem_join_nl L '\r' hmem with h | ⟨s, hs, hc⟩
    · exact absurd h (by decide)
    · have := h2 s hs '\r' hc
      simp [isLB] at this
  unfold splitlines
  rw [normCRLF_no_cr _ hnocr]
  clear hnocr
  induction L with
  | nil => rfl
  | cons s rest ih =>
      cases rest with
      | nil =>
          have hs1 : s ≠ "" := h1 s (List.mem_cons_self _ _)
          have hs2 : ∀ c ∈ s.data, isLB c = false := h2 s (List.mem_cons_self _ _)
          show splitlinesGo s.data [] = [s]
          rw [splitlinesGo_flat s.data [] hs2]
          have hd : s.data ≠ [] := by
            intro h; exact hs1 (String.ext h)
          rw [if_neg (by simpa using hd)]
          simp
      | cons t rest2 =>
          have hs2 : ∀ c ∈ s.data, isLB c = false := h2 s (List.mem_cons_self _ _)
          show splitlinesGo (joinWith "\n" (s :: t :: rest2)).data [] = s :: t :: rest2
          have hdata : (joinWith "\n" (s :: t :: rest2)).data =
              s.data ++ '\n' :: (joinWith "\n" (t :: rest2)).data := by
            simp [joinWith, String.data_append]
          rw [hdata]
          rw [splitlinesGo_append s.data [] _ hs2]
          simp only [List.reverse_nil, List.nil_append]
          have hs : (⟨s.data⟩ : String) = s := String.ext rfl
          rw [hs]
          have ih2 := ih (fun u hu => h1 u (List.mem_cons_of_mem _ hu))
            (fun u hu => h2 u (List.mem_cons_of_mem _ hu))
          exact congrArg (s :: ·) ih2

/-- The lines of a cleaned description are exactly the non-empty,
marker-free lines of the input, in order. -/
theorem splitlines_parse_description (s : String) :
    splitlines (Article.parse_description s) =
      (splitlines s).filter
        (fun ln => !(ln == "") && !(strContains "appeared first on" ln)) := by
  unfold Article.parse_description
  apply splitlines_joinWith
  · intro ln hln
    have hp := (List.mem_filter.mp hln).2
    have h1 : !(ln == "") := by
      cases hb : (ln == "") with
      | false => simp
      | true => rw [hb] at hp; simp at hp
    intro he
    subst he
    simp at h1
  · intro ln hln c hc
    have hmem := (List.mem_filter.mp hln).1
    exact splitlinesGo_no_lb (normCRLF s.data) [] (by intro a ha; cases ha) ln hmem c hc

/-! ### Lemmas about the `Except` plumbing -/

theorem ok_bind {α β : Type} (a : α) (f : α → Except String β) :
    (Except.ok a : Except String α) >>= f = f a := rfl

theorem error_bind {α β : Type} (e : String) (f : α → Except String β) :
    (Except.error e : Except String α) >>= f = Except.error e := rfl

theorem isOkE_true_iff {α : Type} (x : Except String α) :
    isOkE x = true ↔ ∃ a, x = .ok a := by
  cases x with
  | ok a => simp [isOkE]
  | error e => simp [isOkE]

theorem isOkE_bind_false {α β : Type} (x : Except String α) (f : α → Except String β)
    (h : isOkE x = false) : isOkE (x >>= f) = false := by
  cases x with
  | ok a => simp [isOkE] at h
  | error e => rfl

/-! ### The channel walk collects the items in document order -/

/-- Each `item` child parsed independently, in document order: the
reference list the walk of `Feed.parse` is compared against. -/
def parseItems : List XElem → Except String (List Article)
  | [] => .ok []
  | el :: rest => do
      let a ← Article.parse el
      let more ← parseItems rest
      pure (a :: more)

theorem parseItems_length (l : List XElem) :
    ∀ arts, parseItems l = .ok arts → arts.length = l.length := by
  induction l with
  | nil =>
      intro arts h
      cases h
      rfl
  | cons el rest ih =>
      intro arts h
      unfold parseItems at h
      cases hpa : Article.parse el with
      | error e => rw [hpa] at h; cases h
      | ok a =>
          rw [hpa, ok_bind] at h
          cases hrest : parseItems rest with
          | error e => rw [hrest] at h; cases h
          | ok more =>
              rw [hrest, ok_bind] at h
              cases h
              simp [ih more hrest]

/-- A non-`item`, non-`articles` channel child never fails and leaves
the `articles` field unchanged. -/
theorem feedStep_not_item (f : Feed) (el : XElem)
    (h1 : el.tag ≠ "item") (h2 : el.tag ≠ "articles") :
    ∃ f2, feedStep f el = .ok f2 ∧ f2.articles = f.articles := by
  unfold feedStep
  rw [if_neg h1]
  by_cases ht : el.tag = "title"
  · rw [if_pos ht]; exact ⟨_, rfl, rfl⟩
  · rw [if_neg ht]
    by_cases hl : el.tag = "link"
    · rw [if_pos hl]; exact ⟨_, rfl, rfl⟩
    · rw [if_neg hl, if_neg h2]; exact ⟨_, rfl, rfl⟩

theorem channelLoop_items (children : List XElem) :
    ∀ (f : Feed) (l : List Article),
      f.articles = .items l →
      (∀ el ∈ children, el.tag = "item" → isOkE (Article.parse el) = true) →
      (∀ el ∈ children, el.tag ≠ "articles") →
      ∃ arts f2,
        parseItems (children.filter (fun el => el.tag = "item")) = .ok arts ∧
        channelLoop f children = .ok f2 ∧ f2.articles = .items (l ++ arts) := by
  induction children with
  | nil =>
      intro f l hf _ _
      exact ⟨[], f, rfl, rfl, by simp [hf]⟩
  | cons el rest ih =>
      intro f l hf hok hna
      by_cases hi : el.tag = "item"
      · obtain ⟨a, hpa⟩ := (isOkE_true_iff _).mp (hok el (List.mem_cons_self _ _) hi)
        have hstep : feedStep f el = .ok { f with articles := .items (l ++ [a]) } := by
          unfold feedStep
          rw [if_pos hi, hf, hpa]
        obtain ⟨arts, f2, hmap, hloop, hart⟩ :=
          ih { f with articles := .items (l ++ [a]) } (l ++ [a]) rfl
            (fun e he h => hok e (List.mem_cons_of_mem _ he) h)
            (fun e he => hna e (List.mem_cons_of_mem _ he))
        refine ⟨a :: arts, f2, ?_, ?_, ?_⟩
        · rw [List.filter_cons_of_pos (by simpa using hi)]
          unfold parseItems
          rw [hpa, ok_bind, hmap, ok_bind]
          rfl
        · show (feedStep f el) >>= (fun f2 => channelLoop f2 rest) = .ok f2
          rw [hstep, ok_bind, hloop]
        · rw [hart]; simp
      · obtain ⟨f2, hstep, hart⟩ := feedStep_not_item f el hi
          (hna el (List.mem_cons_self _ _))
        obtain ⟨arts, f3, hmap, hloop, hart3⟩ := ih f2 l (hart.trans hf)
          (fun e he h => hok e (List.mem_cons_of_mem _ he) h)
          (fun e he => hna e (List.mem_cons_of_mem _ he))
        refine ⟨arts, f3, ?_, ?_, hart3⟩
        · rw [List.filter_cons_of_neg (by simpa using hi)]
          exact hmap
        · show (feedStep f el) >>= (fun f2 => channelLoop f2 rest) = .ok f3
          rw [hstep, ok_bind, hloop]

/-- The list of articles a successful `Feed.parse` produced, when the
`articles` field is still a list. -/
def articlesOf : Except String Feed → Option (List Article)
  | .ok f => match f.articles with
      | .items l => some l
      | .overwritten _ => none
  | .error _ => none

/-! ### Failure and success propagation through the loops of `main` -/

theorem feedsLoop_err (http : String → HttpResp) (urls : List String) (url : String)
    (hmem : url ∈ urls) (hfail : isOkE (fetchFragment http url) = false) :
    isOkE (feedsLoop http urls) = false := by
  induction urls with
  | nil => cases hmem
  | cons u us ih =>
      show isOkE ((fetchFragment http u) >>= fun s =>
        (feedsLoop http us) >>= fun others => pure (s :: others)) = false
      rcases List.mem_cons.mp hmem with rfl | hmem2
      · exact isOkE_bind_false _ _ hfail
      · cases hu : fetchFragment http u with
        | error e => rw [error_bind]; rfl
        | ok s =>
            rw [ok_bind]
            exact isOkE_bind_false _ _ (ih hmem2)

theorem categoriesLoop_err (http : String → HttpResp) (config : List (String × List String))
    (cat url : String) (urls : List String)
    (hmem : (cat, urls) ∈ config) (hu : url ∈ urls)
    (hfail : isOkE (fetchFragment http url) = false) :
    isOkE (categoriesLoop http config) = false := by
  induction config with
  | nil => cases hmem
  | cons p rest ih =>
      obtain ⟨c, us⟩ := p
      show isOkE ((feedsLoop http us) >>= fun feeds =>
        (categoriesLoop http rest) >>= fun others =>
          pure (CATEGORY_FMT c (joinWith "\n" feeds) :: others)) = false
      rcases List.mem_cons.mp hmem with heq | hmem2
      · obtain ⟨rfl, rfl⟩ := Prod.mk.injEq c us cat urls ▸ heq.symm
        exact isOkE_bind_false _ _ (feedsLoop_err http us url hu hfail)
      · cases hf : feedsLoop http us with
        | error e => rw [error_bind]; rfl
        | ok feeds =>
            rw [ok_bind]
            exact isOkE_bind_false _ _ (ih hmem2)

theorem mainRun_err (http : String → HttpResp) (config : List (String × List String))
    (cat url : String) (urls : List String)
    (hmem : (cat, urls) ∈ config) (hu : url ∈ urls)
    (hfail : isOkE (fetchFragment http url) = false) :
    isOkE (mainRun config http) = false := by
  show isOkE ((categoriesLoop http config) >>= fun cats =>
    pure (HTML_FMT (joinWith "\n" cats))) = false
  exact isOkE_bind_false _ _ (categoriesLoop_err http config cat url urls hmem hu hfail)

/-- The fragment a URL contributes to the document (defined when the
fetch-and-format pipeline for it succeeds). -/
def fragmentText (http : String → HttpResp) (url : String) : String :=
  match fetchFragment http url with
  | .ok s => s
  | .error _ => ""

/-- The final document described by the spec: category blocks in
configuration order, each containing its URLs' feed fragments in URL
order, wrapped in the fixed HTML boilerplate. -/
def renderedDoc (http : String → HttpResp) (config : List (String × List String)) : String :=
  HTML_FMT (joinWith "\n" (config.map (fun p =>
    CATEGORY_FMT p.1 (joinWith "\n" (p.2.map (fragmentText http))))))

theorem feedsLoop_ok (http : String → HttpResp) (urls : List String)
    (h : ∀ u ∈ urls, isOkE (fetchFragment http u) = true) :
    feedsLoop http urls = .ok (urls.map (fragmentText http)) := by
  induction urls with
  | nil => rfl
  | cons u us ih =>
      obtain ⟨s, hs⟩ := (isOkE_true_iff _).mp (h u (List.mem_cons_self _ _))
      show (fetchFragment http u) >>= (fun s =>
        (feedsLoop http us) >>= fun others => pure (s :: others)) = _
      rw [hs, ok_bind, ih (fun v hv => h v (List.mem_cons_of_mem _ hv)), ok_bind]
      simp only [List.map_cons]
      have : fragmentText http u = s := by
        unfold fragmentText
        rw [hs]
      rw [this]
      rfl

theorem categoriesLoop_ok (http : String → HttpResp) (config : List (String × List String))
    (h : ∀ p ∈ config, ∀ u ∈ p.2, isOkE (fetchFragment http u) = true) :
    categoriesLoop http config =
      .ok (config.map (fun p =>
        CATEGORY_FMT p.1 (joinWith "\n" (p.2.map (fragmentText http))))) := by
  induction config with
  | nil => rfl
  | cons p rest ih =>
      obtain ⟨c, us⟩ := p
      show (feedsLoop http us) >>= (fun feeds =>
        (categoriesLoop http rest) >>= fun others =>
          pure (CATEGORY_FMT c (joinWith "\n" feeds) :: others)) = _
      rw [feedsLoop_ok http us (h (c, us) (List.mem_cons_self _ _)), ok_bind,
        ih (fun q hq => h q (List.mem_cons_of_mem _ hq)), ok_bind]
      rfl

/-! ### The channel walk without items: last write wins -/

/-- The value an `Option String` field holds after all writes from
channel children of a given tag were applied (last write wins). -/
def applyLast (tag : String) : List XElem → Option String → Option String
  | [], dflt => dflt
  | el :: rest, dflt => applyLast tag rest (if el.tag = tag then el.text else dflt)

/-- The value of `articles` after all `<articles>` overwrites. -/
def applyLastArticles : List XElem → ArticlesField → ArticlesField
  | [], a => a
  | el :: rest, a =>
      applyLastArticles rest (if el.tag = "articles" then .overwritten el.text else a)

/-- A non-`item` channel child updates exactly the field its tag names
(`title`, `link` or `articles`) and leaves all other fields alone. -/
theorem feedStep_fields (f : Feed) (el : XElem) (h : el.tag ≠ "item") :
    feedStep f el =
      .ok { title := if el.tag = "title" then el.text else f.title,
            link := if el.tag = "link" then el.text else f.link,
            articles := if el.tag = "articles" then .overwritten el.text else f.articles } := by
  unfold feedStep
  rw [if_neg h]
  by_cases ht : el.tag = "title"
  · simp [ht]
  · by_cases hl : el.tag = "link"
    · simp [ht, hl]
    · by_cases ha : el.tag = "articles"
      · simp [ht, hl, ha]
      · simp [ht, hl, ha]

theorem channelLoop_no_items (children : List XElem) :
    ∀ f : Feed, (∀ el ∈ children, el.tag ≠ "item") →
      channelLoop f children =
        .ok { title := applyLast "title" children f.title,
              link := applyLast "link" children f.link,
              articles := applyLastArticles children f.articles } := by
  induction children with
  | nil => intro f _; rfl
  | cons el rest ih =>
      intro f h
      show (feedStep f el) >>= (fun f2 => channelLoop f2 rest) = _
      rw [feedStep_fields f el (h el (List.mem_cons_self _ _)), ok_bind]
      rw [ih _ (fun e he => h e (List.mem_cons_of_mem _ he))]
      rfl

/-! ### A channel walk containing a failing item fails -/

theorem channelLoop_append (l1 l2 : List XElem) :
    ∀ f, channelLoop f (l1 ++ l2) =
      (channelLoop f l1) >>= fun f2 => channelLoop f2 l2 := by
  induction l1 with
  | nil => intro f; rfl
  | cons el rest ih =>
      intro f
      have hunf : channelLoop f (el :: rest) =
          (feedStep f el) >>= fun f2 => channelLoop f2 rest := rfl
      have hunf2 : channelLoop f ((el :: rest) ++ l2) =
          (feedStep f el) >>= fun f2 => channelLoop f2 (rest ++ l2) := rfl
      rw [hunf, hunf2]
      cases hs : feedStep f el with
      | error e => rw [error_bind, error_bind, error_bind]
      | ok f2 => rw [ok_bind, ok_bind, ih f2]

theorem article_parse_bad_date (s : String) (hne : s ≠ "")
    (hbad : Article.parse_dt s = none) (itxt : Option String) (post : List XElem) :
    Article.parse ⟨"item", itxt, ⟨"pubDate", some s, []⟩ :: post⟩ = .error "ValueError" := by
  have hstep : articleStep {} ⟨"pubDate", some s, []⟩ = .error "ValueError" := by
    unfold articleStep
    simp [XElem.tag, XElem.text, hne, hbad]
  show (articleStep {} ⟨"pubDate", some s, []⟩) >>= (fun a2 => itemLoop a2 post) =
    .error "ValueError"
  rw [hstep, error_bind]

theorem feedStep_item_fail (f : Feed) (itm : XElem) (hitag : itm.tag = "item")
    (hfail : isOkE (Article.parse itm) = false) : isOkE (feedStep f itm) = false := by
  unfold feedStep
  rw [if_pos hitag]
  cases f.articles with
  | overwritten t => rfl
  | items l =>
      cases hp : Article.parse itm with
      | error e => rfl
      | ok a => rw [hp] at hfail; simp [isOkE] at hfail

theorem channelLoop_with_bad_item (itm : XElem) (hitag : itm.tag = "item")
    (hfail : isOkE (Article.parse itm) = false) (pre rest : List XElem) (f : Feed) :
    isOkE (channelLoop f (pre ++ itm :: rest)) = false := by
  rw [channelLoop_append pre (itm :: rest) f]
  cases hc : channelLoop f pre with
  | error e => rw [error_bind]; rfl
  | ok f2 =>
      rw [ok_bind]
      have h1 : channelLoop f2 (itm :: rest) =
          (feedStep f2 itm) >>= fun f3 => channelLoop f3 rest := rfl
      rw [h1]
      exact isOkE_bind_false _ _ (feedStep_item_fail f2 itm hitag hfail)

/-- The description field a parse produced (`none` when the parse raised). -/
def descriptionOf : Except String Article → Option (Option String)
  | .ok a => some a.description
  | .error _ => none

/-! ### Witness fixtures -/

/-- A client whose every response is `304 Not Modified` with an empty channel. -/
def http304 : String → HttpResp :=
  fun _ => ⟨304, ⟨"rss", none, [⟨"channel", none, []⟩]⟩⟩

/-- A client whose every response is a `500` server error. -/
def http500 : String → HttpResp :=
  fun _ => ⟨500, ⟨"rss", none, [⟨"channel", none, []⟩]⟩⟩

/-- A one-category, one-URL configuration. -/
def cfg1 : List (String × List String) := [("c", ["u"])]

/-- A channel with a `title` child and two `item` children. -/
def chC2 : List XElem :=
  [⟨"title", some "T", []⟩, ⟨"item", none, []⟩,
   ⟨"item", none, [⟨"title", some "A2", []⟩]⟩]

/-- A channel with a `title` child and an unrecognised child. -/
def chC8 : List XElem :=
  [⟨"title", some "T", []⟩, ⟨"generator", some "g", []⟩]

/-- The feed document of the end-to-end scenario in the spec. -/
def rssW : XElem :=
  ⟨"rss", none, [⟨"channel", none,
    [⟨"title", some "Example Feed", []⟩, ⟨"link", some "http://x", []⟩,
     ⟨"item", none,
       [⟨"title", some "Hello", []⟩, ⟨"link", some "http://x/1", []⟩,
        ⟨"pubDate", some "Mon, 01 Jan 2024 00:00:00 GMT", []⟩,
        ⟨"description", some "Hello world\nThe post Hello appeared first on Example.", []⟩]⟩]⟩]⟩

/-- A client serving the end-to-end scenario document with status 200. -/
def httpW : String → HttpResp := fun _ => ⟨200, rssW⟩

/-- The end-to-end scenario configuration. -/
def cfgW : List (String × List String) := [("Tech", ["http://x/feed"])]

/-- An item whose `pubDate` text does not parse. -/
def itmBad : XElem := ⟨"item", none, [⟨"pubDate", some "garbage", []⟩]⟩

/-- A client serving a channel containing `itmBad` with status 200. -/
def httpBad : String → HttpResp :=
  fun _ => ⟨200, ⟨"rss", none, [⟨"channel", none, [itmBad]⟩]⟩⟩

/-! ### The claims -/

/-- C1 (amended): for every configured URL whose HTTP GET returns a
response with status ≥ 400 (`resp.ok` false), `Feed.parse` raises
`RuntimeError("Failed to fetch: ...")` and the whole run aborts before
the output-writing step, so no output file is written.  (As stated the
claim is false: the guard is `resp.ok`, i.e. status < 400, so a non-2xx
status such as 304 does not raise — see the counterexample.) -/
theorem claim_C1 (config : List (String × List String)) (http : String → HttpResp)
    (cat url : String) (urls : List String)
    (hmem : (cat, urls) ∈ config) (hu : url ∈ urls)
    (hstatus : 400 ≤ (http url).status) :
    Feed.parse http url = .error ("Failed to fetch: " ++ url) ∧
    isOkE (mainRun config http) = false := by
  have hparse : Feed.parse http url = .error ("Failed to fetch: " ++ url) := by
    unfold Feed.parse
    rw [if_neg (by omega)]
  refine ⟨hparse, ?_⟩
  apply mainRun_err http config cat url urls hmem hu
  show isOkE ((Feed.parse http url) >>= Feed.format) = false
  rw [hparse, error_bind]
  rfl

/-- C1 witness: a 500 response for the only configured URL makes
`Feed.parse` raise and the whole run abort with no output. -/
theorem claim_C1_witness :
    Feed.parse http500 "u" = .error "Failed to fetch: u" ∧
    isOkE (mainRun cfg1 http500) = false :=
  claim_C1 cfg1 http500 "c" "u" ["u"] (by decide) (by decide) (by decide)

/-- C1 counterexample: a `304 Not Modified` response has a non-2xx
status, yet `Feed.parse` does not raise (`resp.ok` is status < 400) and
the run completes, writing output — refuting the claim as stated. -/
theorem claim_C1_cx :
    (http304 "u").status = 304 ∧
    isOkE (Feed.parse http304 "u") = true ∧
    isOkE (mainRun cfg1 http304) = true :=
  ⟨rfl, rfl, rfl⟩

/-- C2: for every channel whose `item` children all parse (their
`pubDate` texts are absent or well-formed) and which has no `articles`
child to disturb the reflection fallback, `Feed.parse`'s walk succeeds
and produces exactly the items' articles, parsed in document order — in
particular one article per `item` child. -/
theorem claim_C2 (tg : String) (txt : Option String) (children : List XElem)
    (hok : ∀ el ∈ children, el.tag = "item" → isOkE (Article.parse el) = true)
    (hna : ∀ el ∈ children, el.tag ≠ "articles") :
    articlesOf (Feed.parseChannel ⟨tg, txt, children⟩) =
      (parseItems (children.filter (fun el => el.tag = "item"))).toOption ∧
    (articlesOf (Feed.parseChannel ⟨tg, txt, children⟩)).map List.length =
      some (children.filter (fun el => el.tag = "item")).length := by
  obtain ⟨arts, f2, hmap, hloop, hart⟩ := channelLoop_items children {} [] rfl hok hna
  have hpc : Feed.parseChannel ⟨tg, txt, children⟩ = .ok f2 := hloop
  have hao : articlesOf (Feed.parseChannel ⟨tg, txt, children⟩) = some arts := by
    rw [hpc]
    show (match f2.articles with
          | .items l => some l
          | .overwritten _ => none) = some arts
    rw [hart]
    simp
  constructor
  · rw [hao, hmap]
    rfl
  · rw [hao]
    simp only [Option.map_some']
    exact congrArg some (parseItems_length _ arts hmap)

/-- C2 witness: a channel with two items yields exactly those two
articles, in document order. -/
theorem claim_C2_witness :
    articlesOf (Feed.parseChannel ⟨"channel", none, chC2⟩) =
      some [{}, { title := some "A2" }] ∧
    (articlesOf (Feed.parseChannel ⟨"channel", none, chC2⟩)).map List.length = some 2 := by
  have h := claim_C2 "channel" none chC2
    (by intro el hel hi; fin_cases hel <;> rfl)
    (by intro el hel; fin_cases hel <;> decide)
  exact ⟨h.1.trans rfl, h.2.trans rfl⟩

/-- C3: description cleaning is idempotent — re-applying
`Article.parse_description` to its own output returns it unchanged. -/
theorem claim_C3 (s : String) :
    Article.parse_description (Article.parse_description s) =
      Article.parse_description s := by
  conv_lhs => rw [Article.parse_description]
  rw [splitlines_parse_description, List.filter_filter]
  simp only [Bool.and_self]
  rfl

/-- C4 (amended): the lines of the cleaned description are exactly the
input lines that are non-empty and do not contain the marker
`"appeared first on"`, kept verbatim in their original order.  (As
stated the claim is false: empty lines contain no marker yet are also
removed — see the counterexample.) -/
theorem claim_C4 (s : String) :
    splitlines (Article.parse_description s) =
      (splitlines s).filter
        (fun ln => !(ln == "") && !(strContains "appeared first on" ln)) :=
  splitlines_parse_description s

/-- C4 counterexample: on `"a\n\nb"` the empty middle line contains no
marker, yet it is not preserved, refuting marker-only filtering. -/
theorem claim_C4_cx :
    splitlines (Article.parse_description "a\n\nb") ≠
      (splitlines "a\n\nb").filter
        (fun ln => !(strContains "appeared first on" ln)) := by
  decide

/-- C5: parsing `"Wed, 04 Oct 2023 10:00:00 GMT"` yields the calendar
date 2023-10-04, and formatting that date with `"%x"` (C locale) renders
the same date as `"10/04/23"`. -/
theorem claim_C5 :
    Article.parse_dt "Wed, 04 Oct 2023 10:00:00 GMT" = some ⟨2023, 10, 4⟩ ∧
    Article.fmtDateField (.dt ⟨2023, 10, 4⟩) = .ok "10/04/23" ∧
    fmtX ⟨2023, 10, 4⟩ = "10/04/23" :=
  ⟨by decide, rfl, by decide⟩

/-- C6 (amended): a present `description` element with non-empty text
always leaves a present (`some`) field — even when cleaning yields an
empty string; a present element with empty or absent text sets the
field to `None` (unset); but an absent element leaves the dataclass
default `""`, which is present-but-empty, not unset.  (As stated the
claim is false on the absent-element case — see the counterexample.) -/
theorem claim_C6 (t : Option String) :
    Article.parse ⟨"item", none, [⟨"description", t, []⟩]⟩ =
      .ok { title := some "", link := some "",
            description :=
              match t with
              | some s => if s = "" then none else some (Article.parse_description s)
              | none => none,
            date := .unset } ∧
    Article.parse ⟨"item", none, []⟩ =
      .ok { title := some "", link := some "", description := some "", date := .unset } := by
  constructor
  · cases t with
    | none => rfl
    | some s =>
        by_cases h : s = ""
        · subst h; rfl
        · have hstep : articleStep {} ⟨"description", some s, []⟩ =
              .ok { description := some (Article.parse_description s) } := by
            unfold articleStep
            simp [XElem.tag, XElem.text, h]
          show (articleStep {} ⟨"description", some s, []⟩) >>=
            (fun a2 => itemLoop a2 []) = _
          rw [hstep, ok_bind]
          simp [itemLoop, h]
  · rfl

/-- C6 counterexample: an item with no `description` element at all
yields an article whose description is `some ""` (present-but-empty,
the dataclass default), not unset, refuting the absent-element case. -/
theorem claim_C6_cx :
    descriptionOf (Article.parse ⟨"item", none, []⟩) = some (some "") ∧
    descriptionOf (Article.parse ⟨"item", none, []⟩) ≠ some none :=
  ⟨rfl, by decide⟩

/-- C7 (amended): `Article.format` renders the locale-formatted date
followed by `" - "` before the link when the date is present, and when
the date is unset it renders the string `"None"` followed by `" - "` —
the date slot is not omitted.  (As stated the claim is false: the
template always contains `"{date} - "` — see the counterexample.) -/
theorem claim_C7 (t l dsc : Option String) (d : Date) :
    Article.format { title := t, link := l, description := dsc, date := .dt d } =
      .ok ("\n<li class=\"article\">\n    " ++ fmtX d ++ " - <a href=\"" ++ strOfOpt l ++
        "\" target=\"new\">" ++ strOfOpt t ++
        "</a>\n    <br/>\n    <div class=\"article-description\">" ++ strOfOpt dsc ++
        "</div>\n</li>\n") ∧
    Article.format { title := t, link := l, description := dsc, date := .unset } =
      .ok ("\n<li class=\"article\">\n    None - <a href=\"" ++ strOfOpt l ++
        "\" target=\"new\">" ++ strOfOpt t ++
        "</a>\n    <br/>\n    <div class=\"article-description\">" ++ strOfOpt dsc ++
        "</div>\n</li>\n") :=
  ⟨rfl, rfl⟩

/-- C7 counterexample: an article with no date renders `"None - "`
before the link instead of omitting the date prefix. -/
theorem claim_C7_cx :
    Article.format { title := some "t", link := some "l", description := some "d",
                     date := .unset } =
      .ok "\n<li class=\"article\">\n    None - <a href=\"l\" target=\"new\">t</a>\n    <br/>\n    <div class=\"article-description\">d</div>\n</li>\n" ∧
    strContains "None - "
      "\n<li class=\"article\">\n    None - <a href=\"l\" target=\"new\">t</a>\n    <br/>\n    <div class=\"article-description\">d</div>\n</li>\n" = true :=
  ⟨rfl, by decide⟩

/-- C8 (amended): on a channel without `item` children, a child tagged
`title` or `link` sets that attribute from the element's text (last
write wins), a child tagged `articles` likewise overwrites the
`articles` attribute with the element's text (the record does not stay
unchanged), and children with any other tag leave the record unchanged.
(As stated the claim is false for the tag `articles` — see the
counterexample.) -/
theorem claim_C8 (tg : String) (txt : Option String) (children : List XElem)
    (h : ∀ el ∈ children, el.tag ≠ "item") :
    Feed.parseChannel ⟨tg, txt, children⟩ =
      .ok { title := applyLast "title" children (some ""),
            link := applyLast "link" children (some ""),
            articles := applyLastArticles children (.items []) } :=
  channelLoop_no_items children {} h

/-- C8 witness: a `title` child sets the title and an unrecognised
`generator` child is ignored. -/
theorem claim_C8_witness :
    Feed.parseChannel ⟨"channel", none, chC8⟩ =
      .ok { title := some "T", link := some "", articles := .items [] } :=
  (claim_C8 "channel" none chC8 (by intro el hel; fin_cases hel <;> decide)).trans rfl

/-- C8 counterexample: a channel child tagged `articles` does not leave
the feed record unchanged — it overwrites the `articles` field with the
element's text. -/
theorem claim_C8_cx :
    Feed.parseChannel ⟨"channel", none, [⟨"articles", some "x", []⟩]⟩ =
      .ok { title := some "", link := some "", articles := .overwritten (some "x") } ∧
    ArticlesField.overwritten (some "x") ≠ .items [] :=
  ⟨rfl, by decide⟩

/-- C9: when every configured URL's fetch-and-format pipeline succeeds,
the final document is exactly the spec-side rendering: category blocks
in configuration order, feed fragments within a category in its URL-list
order, all wrapped in the fixed boilerplate (and each feed fragment
joins its articles in the feed's document order). -/
theorem claim_C9 (config : List (String × List String)) (http : String → HttpResp)
    (h : ∀ p ∈ config, ∀ u ∈ p.2, isOkE (fetchFragment http u) = true) :
    mainRun config http = .ok (renderedDoc http config) := by
  show (categoriesLoop http config) >>=
    (fun cats => pure (HTML_FMT (joinWith "\n" cats))) = _
  rw [categoriesLoop_ok http config h, ok_bind]
  rfl

/-- C9 witness: the end-to-end scenario configuration renders to the
spec-side document. -/
theorem claim_C9_witness : mainRun cfgW httpW = .ok (renderedDoc httpW cfgW) :=
  claim_C9 cfgW httpW (by intro p hp u hu; fin_cases hp; fin_cases hu; decide)

/-- C10: an item whose `pubDate` text is non-empty but fails
`"%d %b %Y"` parsing makes the date parser raise `ValueError`; the
exception propagates out of `Article.parse`, aborts any channel walk
containing the item, and aborts the whole run for any configuration
whose response delivers such a channel — the code chose the fatal
option for malformed dates. -/
theorem claim_C10 (s : String) (hne : s ≠ "") (hbad : Article.parse_dt s = none)
    (itxt : Option String) (post : List XElem) :
    Article.parse ⟨"item", itxt, ⟨"pubDate", some s, []⟩ :: post⟩ = .error "ValueError" ∧
    (∀ (pre rest : List XElem) (f : Feed),
      isOkE (channelLoop f
        (pre ++ (⟨"item", itxt, ⟨"pubDate", some s, []⟩ :: post⟩ : XElem) :: rest)) = false) ∧
    (∀ (http : String → HttpResp) (config : List (String × List String))
        (cat url : String) (urls : List String),
      (cat, urls) ∈ config → url ∈ urls →
      (http url).root.children.head? =
        some ⟨"channel", none, [⟨"item", itxt, ⟨"pubDate", some s, []⟩ :: post⟩]⟩ →
      isOkE (mainRun config http) = false) := by
  have hparse : Article.parse ⟨"item", itxt, ⟨"pubDate", some s, []⟩ :: post⟩ =
      .error "ValueError" := article_parse_bad_date s hne hbad itxt post
  have hfail : isOkE (Article.parse ⟨"item", itxt, ⟨"pubDate", some s, []⟩ :: post⟩) =
      false := by rw [hparse]; rfl
  have hch : ∀ (pre rest : List XElem) (f : Feed),
      isOkE (channelLoop f
        (pre ++ (⟨"item", itxt, ⟨"pubDate", some s, []⟩ :: post⟩ : XElem) :: rest)) = false :=
    fun pre rest f =>
      channelLoop_with_bad_item ⟨"item", itxt, ⟨"pubDate", some s, []⟩ :: post⟩
        rfl hfail pre rest f
  refine ⟨hparse, hch, ?_⟩
  intro http config cat url urls hmem hu hhead
  apply mainRun_err http config cat url urls hmem hu
  show isOkE ((Feed.parse http url) >>= Feed.format) = false
  apply isOkE_bind_false
  unfold Feed.parse
  by_cases hst : (http url).status < 400
  · rw [if_pos hst, hhead]
    exact hch [] [] {}
  · rw [if_neg hst]
    rfl

/-- C10 witness: the text `"garbage"` fails date parsing, and the
failure aborts the item parse, the channel walk, and the whole run. -/
theorem claim_C10_witness :
    Article.parse itmBad = .error "ValueError" ∧
    isOkE (Feed.parseChannel ⟨"channel", none, [itmBad]⟩) = false ∧
    isOkE (mainRun [("c", ["u"])] httpBad) = false := by
  have h := claim_C10 "garbage" (by decide) (by decide) none []
  exact ⟨h.1, h.2.1 [] [] {},
    h.2.2 httpBad [("c", ["u"])] "c" "u" ["u"] (by decide) (by decide) rfl⟩
